import Mathlib

/-!
# Verification of the log_manage query/formatting front-end logic

Shallow embedding of the JavaScript logic of `frontend/src/components/LogViewer.jsx`
and `LogListPage.jsx` (the file `src/unnamed/part_003`): the filter predicate of
`filteredLogs`, its sorting step, the `paginatedLogs` / `fetchLogs` pagination,
`handleAnalyze`'s log-line extraction, and `formatTimestamp`.  JavaScript strings are
modelled as Lean `String` / `List Char` (identical on the ASCII inputs these
components handle), JS arrays as Lean lists, and the stable `Array.prototype.sort`
(stable per ES2019) as `List.mergeSort`.  The backend (FastAPI `backend/main.py`) is
not part of the sources; the two places where its behaviour is needed are modelled
from the specification and marked `Modelled from the spec:`.
-/

/-- One parsed log line as served to the front-end: `{timestamp, level, service,
process, message, raw}`.  `timestamp` and `service` may be `null` (the code guards
them with `|| ''` / `(log.service || "")`); `level`, `process`, `message`, `raw`
are strings. -/
structure LogRecord where
  timestamp : Option String
  level : String
  service : Option String
  process : String
  message : String
  raw : String
deriving DecidableEq, Repr

/-- The four filter input states of `LogViewer` / `LogListPage`
(`filterLevel`, `filterProcess`, `filterService`, `filterMessage`). -/
structure Filters where
  filterLevel : String
  filterProcess : String
  filterService : String
  filterMessage : String
deriving DecidableEq, Repr

/-- `String.prototype.toLowerCase` (ASCII range, which is what `Char.toLower`
lowers; the records and filters handled here are ASCII). -/
def jsToLower (s : String) : String := String.mk (s.data.map Char.toLower)

/-- Does `h` start with `n`?  (Helper for `String.prototype.includes`.) -/
def startsWithL : List Char → List Char → Bool
  | _, [] => true
  | [], _ :: _ => false
  | c :: h, d :: n => c == d && startsWithL h n

/-- Substring containment on char lists (helper for `String.prototype.includes`). -/
def containsL : List Char → List Char → Bool
  | [], needle => startsWithL [] needle
  | c :: t, needle => startsWithL (c :: t) needle || containsL t needle

/-- `hay.includes(needle)` for JS strings. -/
def jsIncludes (hay needle : String) : Bool := containsL hay.data needle.data

/-- `filterLevel === "ALL" || log.level === filterLevel` (part_003 line 505/964). -/
def matchLevel (fl : Filters) (log : LogRecord) : Bool :=
  fl.filterLevel == "ALL" || log.level == fl.filterLevel

/-- `log.process.toLowerCase().includes(filterProcess.toLowerCase())` (line 506/965). -/
def matchProcess (fl : Filters) (log : LogRecord) : Bool :=
  jsIncludes (jsToLower log.process) (jsToLower fl.filterProcess)

/-- `(log.service || "").toLowerCase().includes(filterService.toLowerCase())` (line 507/966). -/
def matchService (fl : Filters) (log : LogRecord) : Bool :=
  jsIncludes (jsToLower (log.service.getD "")) (jsToLower fl.filterService)

/-- `log.message.toLowerCase().includes(filterMessage.toLowerCase())` (line 508/967). -/
def matchMessage (fl : Filters) (log : LogRecord) : Bool :=
  jsIncludes (jsToLower log.message) (jsToLower fl.filterMessage)

/-- The predicate passed to `logs.filter` in `filteredLogs`
(part_003 lines 504-510 and 963-969). -/
def matchRec (fl : Filters) (log : LogRecord) : Bool :=
  matchLevel fl log && matchProcess fl log && matchService fl log && matchMessage fl log

/-- The sortable columns (`handleSort` is called with exactly these five
field names, part_003 lines 708-737 / 1115-1144). -/
inductive SortField where
  | timestamp
  | level
  | service
  | process
  | message
deriving DecidableEq, Repr

/-- `(a[sortField] || '').toString().toLowerCase()` (part_003 lines 514-517):
the `|| ''` turns a `null` timestamp / service into the empty string and is the
identity on the other (string-valued) fields; `toString()` is the identity on
strings. -/
def sortKey (f : SortField) (log : LogRecord) : String :=
  match f with
  | .timestamp => log.timestamp.getD ""
  | .level => log.level
  | .service => log.service.getD ""
  | .process => log.process
  | .message => log.message

/-- The comparator of `result.sort` (part_003 lines 513-521) as a boolean
"may `a` come before `b`" relation: the comparator returns `-1/1/0` by comparing
the lowercased key strings, with the sign flipped for `sortDirection === 'desc'`.
`dirAsc = true` is ascending. -/
def sortLE (f : SortField) (dirAsc : Bool) (a b : LogRecord) : Bool :=
  let aVal := jsToLower (sortKey f a)
  let bVal := jsToLower (sortKey f b)
  if dirAsc then decide (aVal ≤ bVal) else decide (bVal ≤ aVal)

/-- `filteredLogs` (part_003 lines 503-525, identical in `LogListPage` lines
962-984): filter by `matchRec`, then, when a sort field is selected
(`if (sortField)` — the empty string is falsy), sort with the comparator.
`Array.prototype.sort` is a stable sort (ES2019), embedded as `List.mergeSort`. -/
def filteredLogs (fl : Filters) (sf : Option (SortField × Bool)) (logs : List LogRecord) :
    List LogRecord :=
  let result := logs.filter (matchRec fl)
  match sf with
  | none => result
  | some (f, dirAsc) => result.mergeSort (sortLE f dirAsc)

/-! ## Helper lemmas about the string operations -/

theorem startsWithL_iff (h n : List Char) :
    startsWithL h n = true ↔ ∃ t, h = n ++ t := by
  induction n generalizing h with
  | nil => simp [startsWithL]
  | cons d n ih =>
    cases h with
    | nil => simp [startsWithL]
    | cons c h =>
      simp only [startsWithL, Bool.and_eq_true, beq_iff_eq, ih, List.cons_append,
        List.cons.injEq]
      constructor
      · rintro ⟨rfl, t, rfl⟩
        exact ⟨t, rfl, rfl⟩
      · rintro ⟨t, rfl, rfl⟩
        exact ⟨rfl, t, rfl⟩

theorem containsL_iff (h n : List Char) :
    containsL h n = true ↔ ∃ pre post, h = pre ++ n ++ post := by
  induction h with
  | nil =>
    simp only [containsL, startsWithL_iff]
    constructor
    · rintro ⟨t, ht⟩
      exact ⟨[], t, by simpa using ht⟩
    · rintro ⟨pre, post, hp⟩
      have h0 : pre ++ n ++ post = [] := hp.symm
      rcases List.append_eq_nil.mp h0 with ⟨h1, h3⟩
      rcases List.append_eq_nil.mp h1 with ⟨h4, h5⟩
      exact ⟨[], by simp [h5]⟩
  | cons c t ih =>
    simp only [containsL, Bool.or_eq_true, startsWithL_iff, ih]
    constructor
    · rintro (⟨u, hu⟩ | ⟨pre, post, hp⟩)
      · exact ⟨[], u, by simp [hu]⟩
      · exact ⟨c :: pre, post, by simp [hp]⟩
    · rintro ⟨pre, post, hp⟩
      cases pre with
      | nil =>
        exact Or.inl ⟨post, by simpa using hp⟩
      | cons p ps =>
        simp only [List.cons_append, List.cons.injEq] at hp
        exact Or.inr ⟨ps, post, hp.2⟩

/-- `"".includes(x)` holds exactly when `x` is empty. -/
theorem containsL_nil_iff (n : List Char) : containsL [] n = true ↔ n = [] := by
  cases n <;> simp [containsL, startsWithL]

/-- The specification's notion "the filter string is a case-insensitive substring
of the field": some decomposition of the lowercased field exhibits the lowercased
filter string as a contiguous segment.  (Spec §4.4 "Filtering semantics".) -/
def ciSubstr (needle hay : String) : Prop :=
  ∃ pre post, (jsToLower hay).data = pre ++ (jsToLower needle).data ++ post

theorem jsIncludes_iff_ciSubstr (hay needle : String) :
    jsIncludes (jsToLower hay) (jsToLower needle) = true ↔ ciSubstr needle hay := by
  unfold jsIncludes ciSubstr
  rw [containsL_iff]

theorem string_data_eq_nil_iff (s : String) : s.data = [] ↔ s = "" := by
  constructor
  · intro h
    cases s
    simp_all
  · rintro rfl
    rfl

/-- **C2.** A record is kept by the query's filter stage exactly when all four
predicates hold simultaneously: `levelFilter` is `"ALL"` or equals the record's
level exactly (case-sensitively), and each of the three text filters is a
case-insensitive substring of the record's `process`, `service` (empty string when
absent) and `message` respectively. -/
theorem C2_filter_semantics (fl : Filters) (logs : List LogRecord) (r : LogRecord) :
    r ∈ filteredLogs fl none logs ↔
      r ∈ logs ∧
      ((fl.filterLevel = "ALL" ∨ r.level = fl.filterLevel) ∧
       ciSubstr fl.filterProcess r.process ∧
       ciSubstr fl.filterService (r.service.getD "") ∧
       ciSubstr fl.filterMessage r.message) := by
  show r ∈ (logs.filter (matchRec fl)) ↔ _
  rw [List.mem_filter]
  refine and_congr_right fun _ => ?_
  unfold matchRec matchLevel matchProcess matchService matchMessage
  rw [← jsIncludes_iff_ciSubstr, ← jsIncludes_iff_ciSubstr, ← jsIncludes_iff_ciSubstr]
  simp only [Bool.and_eq_true, Bool.or_eq_true, beq_iff_eq]
  tauto

/-- **C3.** With no sort field selected, the query result is exactly `logs.filter`,
which is a sublist (order-preserving subsequence) of the store order, containing
precisely the records that pass the filters. -/
theorem C3_filter_preserves_store_order (fl : Filters) (logs : List LogRecord) :
    filteredLogs fl none logs = logs.filter (matchRec fl) ∧
    List.Sublist (filteredLogs fl none logs) logs ∧
    ∀ r, r ∈ filteredLogs fl none logs ↔ r ∈ logs ∧ matchRec fl r = true := by
  exact ⟨rfl, List.filter_sublist logs, fun r => List.mem_filter⟩

theorem jsIncludes_empty_iff (n : String) : jsIncludes "" n = true ↔ n = "" := by
  unfold jsIncludes
  rw [show ("" : String).data = [] from rfl, containsL_nil_iff, string_data_eq_nil_iff]

theorem jsToLower_eq_empty_iff (s : String) : jsToLower s = "" ↔ s = "" := by
  constructor
  · intro h
    have hd : (jsToLower s).data = [] := by rw [h]
    unfold jsToLower at hd
    simp only [List.map_eq_nil_iff] at hd
    exact (string_data_eq_nil_iff s).mp hd
  · rintro rfl
    rfl

/-- **C10.** When a record's `service` is `null`, the filter predicate is still
total — `(log.service || "")` replaces the missing field by the empty string, so
every predicate below is a total function — and the record passes the service
filter exactly when the service filter string is empty. -/
theorem C10_null_service_total (fl : Filters) (log : LogRecord)
    (h : log.service = none) :
    matchService fl log = true ↔ fl.filterService = "" := by
  have h1 : jsToLower (log.service.getD "") = "" := by rw [h]; rfl
  rw [matchService, h1, jsIncludes_empty_iff, jsToLower_eq_empty_iff]

/-- A record whose `service` field is absent (`null`). -/
def sampleNullService : LogRecord :=
  ⟨none, "INFO", none, "systemd", "started", "raw line"⟩

/-- The reset filter state of the UI: level `"ALL"`, all text filters empty. -/
def emptyFilters : Filters := ⟨"ALL", "", "", ""⟩

theorem C10_null_service_total_witness :
    matchService emptyFilters sampleNullService = true ↔
      emptyFilters.filterService = "" :=
  C10_null_service_total emptyFilters sampleNullService rfl

/-! ## The query is read-only (heap model) -/

/-- A minimal heap of arrays, to state read-only-ness of the query:
`Array.prototype.filter` allocates a fresh array (ECMA-262) while
`Array.prototype.sort` mutates its receiver in place, and in `filteredLogs` the
sort receiver is the freshly allocated `result`, never the input `logs`. -/
structure ArrStore where
  arrs : List (List LogRecord)

/-- Read the array at address `i` (empty when the address is unused). -/
def readArr (h : ArrStore) (i : Nat) : List LogRecord := (h.arrs[i]?).getD []

/-- Allocate a fresh array, returning the new heap and the fresh address. -/
def allocArr (h : ArrStore) (a : List LogRecord) : ArrStore × Nat :=
  (⟨h.arrs ++ [a]⟩, h.arrs.length)

/-- Overwrite the array at address `i` (in-place mutation). -/
def writeArr (h : ArrStore) (i : Nat) (a : List LogRecord) : ArrStore :=
  ⟨h.arrs.set i a⟩

/-- `filteredLogs` (part_003 lines 503-525 / 962-984) with the JS array
allocation and mutation made explicit: `logs.filter(...)` allocates `result`,
and `result.sort(...)` overwrites the array at `result`'s address in place. -/
def filteredLogsHeap (fl : Filters) (sf : Option (SortField × Bool)) (h : ArrStore)
    (logsRef : Nat) : ArrStore × Nat :=
  let logs := readArr h logsRef
  let h1 := (allocArr h (logs.filter (matchRec fl))).1
  let resultRef := (allocArr h (logs.filter (matchRec fl))).2
  let h2 :=
    match sf with
    | none => h1
    | some (f, dirAsc) =>
        writeArr h1 resultRef ((readArr h1 resultRef).mergeSort (sortLE f dirAsc))
  (h2, resultRef)

/-- **C9.** The query is read-only: running `filteredLogs` against the heap leaves
the input array untouched (same elements, same order), the result lives in a
freshly allocated array, and every record of the result is (pointer-)equal to a
record of the input — no record's fields are modified. -/
theorem C9_query_engine_readonly (fl : Filters) (sf : Option (SortField × Bool))
    (h : ArrStore) (logsRef : Nat) (hlt : logsRef < h.arrs.length) :
    readArr (filteredLogsHeap fl sf h logsRef).1 logsRef = readArr h logsRef ∧
    readArr (filteredLogsHeap fl sf h logsRef).1 (filteredLogsHeap fl sf h logsRef).2 =
      filteredLogs fl sf (readArr h logsRef) ∧
    ∀ r ∈ filteredLogs fl sf (readArr h logsRef), r ∈ readArr h logsRef := by
  have hne : logsRef ≠ h.arrs.length := Nat.ne_of_lt hlt
  refine ⟨?_, ?_, ?_⟩
  · cases sf with
    | none =>
      simp only [filteredLogsHeap, allocArr, readArr]
      rw [List.getElem?_append, if_pos hlt]
    | some p =>
      obtain ⟨f, dirAsc⟩ := p
      simp only [filteredLogsHeap, allocArr, writeArr, readArr]
      rw [List.getElem?_set_ne (Ne.symm hne), List.getElem?_append, if_pos hlt]
  · cases sf with
    | none =>
      simp only [filteredLogsHeap, allocArr, readArr, filteredLogs]
      rw [List.getElem?_concat_length]
      rfl
    | some p =>
      obtain ⟨f, dirAsc⟩ := p
      simp only [filteredLogsHeap, allocArr, writeArr, readArr, filteredLogs]
      rw [List.getElem?_set_self (by simp), List.getElem?_concat_length]
      rfl
  · intro r hr
    cases sf with
    | none => exact (List.mem_filter.mp hr).1
    | some p =>
      obtain ⟨f, dirAsc⟩ := p
      have hm : r ∈ (readArr h logsRef).filter (matchRec fl) :=
        List.mem_mergeSort.mp hr
      exact (List.mem_filter.mp hm).1

/-! ## Sorting: sortedness, permutation, stability -/

theorem sortLE_trans (f : SortField) (dirAsc : Bool) :
    ∀ a b c, sortLE f dirAsc a b → sortLE f dirAsc b c → sortLE f dirAsc a c := by
  intro a b c hab hbc
  cases dirAsc <;> simp only [sortLE] at hab hbc ⊢ <;> simp at hab hbc ⊢
  · exact le_trans hbc hab
  · exact le_trans hab hbc

theorem sortLE_total (f : SortField) (dirAsc : Bool) :
    ∀ a b, sortLE f dirAsc a b || sortLE f dirAsc b a := by
  intro a b
  cases dirAsc <;> simp only [sortLE] <;> simp <;> exact le_total _ _

theorem sortLE_of_keys_eq (f : SortField) (dirAsc : Bool) (a b : LogRecord)
    (h : jsToLower (sortKey f a) = jsToLower (sortKey f b)) :
    sortLE f dirAsc a b = true := by
  cases dirAsc <;> simp only [sortLE] <;> simp [h]

/-- A stable sort leaves the subsequence of records sharing any fixed key
untouched: derived from `List.sublist_mergeSort`. -/
theorem mergeSort_filter_fixed {α : Type} (le : α → α → Bool) (p : α → Bool)
    (l : List α)
    (htrans : ∀ a b c, le a b → le b c → le a c)
    (htotal : ∀ a b, le a b || le b a)
    (hp : ∀ a b, p a = true → p b = true → le a b = true) :
    (l.mergeSort le).filter p = l.filter p := by
  have hsub : List.Sublist (l.filter p) l := List.filter_sublist l
  have hpair : (l.filter p).Pairwise (fun a b => le a b = true) :=
    List.pairwise_of_forall_mem_list fun a ha b hb =>
      hp a b (List.mem_filter.mp ha).2 (List.mem_filter.mp hb).2
  have hstable : List.Sublist (l.filter p) (l.mergeSort le) :=
    List.sublist_mergeSort htrans htotal hpair hsub
  have hself : (l.filter p).filter p = l.filter p :=
    List.filter_eq_self.mpr fun a ha => (List.mem_filter.mp ha).2
  have h2 : List.Sublist (l.filter p) ((l.mergeSort le).filter p) := by
    have := hstable.filter p
    rwa [hself] at this
  have h3 : List.Perm ((l.mergeSort le).filter p) (l.filter p) :=
    (List.mergeSort_perm l le).filter p
  exact (h2.eq_of_length h3.length_eq.symm).symm

/-- **C4.** With a sort field selected, the query result is a permutation of the
filtered sequence, ordered by case-insensitive lexicographic comparison of the
field's string representation in the requested direction, and the sort is stable:
for every key value, the result restricted to records whose (lowercased) key is
that value equals the filtered sequence restricted the same way — equal-key
records keep their relative order. -/
theorem C4_sort_sorted_and_stable (fl : Filters) (f : SortField) (dirAsc : Bool)
    (logs : List LogRecord) :
    List.Perm (filteredLogs fl (some (f, dirAsc)) logs) (filteredLogs fl none logs) ∧
    List.Pairwise
      (fun a b =>
        if dirAsc then jsToLower (sortKey f a) ≤ jsToLower (sortKey f b)
        else jsToLower (sortKey f b) ≤ jsToLower (sortKey f a))
      (filteredLogs fl (some (f, dirAsc)) logs) ∧
    ∀ k : String,
      (filteredLogs fl (some (f, dirAsc)) logs).filter
          (fun r => jsToLower (sortKey f r) == k) =
        (filteredLogs fl none logs).filter
          (fun r => jsToLower (sortKey f r) == k) := by
  refine ⟨?_, ?_, ?_⟩
  · exact List.mergeSort_perm (logs.filter (matchRec fl)) (sortLE f dirAsc)
  · have hs :
        (filteredLogs fl (some (f, dirAsc)) logs).Pairwise
          (fun a b => sortLE f dirAsc a b = true) :=
      List.sorted_mergeSort (sortLE_trans f dirAsc) (sortLE_total f dirAsc)
        (logs.filter (matchRec fl))
    refine hs.imp ?_
    intro a b hab
    cases dirAsc <;> simp only [sortLE] at hab <;> simpa using hab
  · intro k
    exact mergeSort_filter_fixed (sortLE f dirAsc)
      (fun r => jsToLower (sortKey f r) == k) (logs.filter (matchRec fl))
      (sortLE_trans f dirAsc) (sortLE_total f dirAsc)
      (fun a b ha hb =>
        sortLE_of_keys_eq f dirAsc a b
          ((beq_iff_eq.mp ha).trans (beq_iff_eq.mp hb).symm))

/-! ## Pagination -/

/-- Modelled from the spec: the backend `listLogs` endpoint (the FastAPI
`backend/main.py` is not among the sources; only its caller `fetchLogs` is).
Spec §4.4 Pagination: "`offset`/`limit` slice the filtered (and possibly sorted)
sequence", so `GET /logs/{host}?limit=..&offset=..` returns the slice
`[offset, offset+limit)` of the query sequence. -/
def listLogsPage (seq : List LogRecord) (offset limit : Nat) : List LogRecord :=
  (seq.drop offset).take limit

/-- `fetchLogs` (part_003 lines 871-876): `hasMore` is set to `false` exactly when
the page just received has fewer records than requested ("If we got fewer logs
than requested, there are no more"), and to `true` otherwise. -/
def fetchHasMore (newLogs : List LogRecord) (limit : Nat) : Bool :=
  if newLogs.length < limit then false else true

/-- The spec's pagination scenario store: 5 ERROR records and 3 records of other
levels, in file-appearance order. -/
def scenarioLogs : List LogRecord :=
  [⟨some "2024-01-15 10:00:00", "ERROR", some "sshd", "sshd", "failed password 1", "e1"⟩,
   ⟨some "2024-01-15 10:00:01", "INFO", some "init", "systemd", "session opened", "i1"⟩,
   ⟨some "2024-01-15 10:00:02", "ERROR", some "sshd", "sshd", "failed password 2", "e2"⟩,
   ⟨some "2024-01-15 10:00:03", "WARN", some "kern", "kernel", "memory pressure", "w1"⟩,
   ⟨some "2024-01-15 10:00:04", "ERROR", some "sshd", "sshd", "failed password 3", "e3"⟩,
   ⟨some "2024-01-15 10:00:05", "INFO", some "init", "systemd", "session closed", "i2"⟩,
   ⟨some "2024-01-15 10:00:06", "ERROR", some "sshd", "sshd", "failed password 4", "e4"⟩,
   ⟨some "2024-01-15 10:00:07", "ERROR", some "sshd", "sshd", "failed password 5", "e5"⟩]

/-- Filter state selecting only ERROR records. -/
def errFilters : Filters := ⟨"ERROR", "", "", ""⟩

/-- **C1 (counterexample).** The claimed biconditional
`hasMore = (offset + limit < filteredCount)` fails at the boundary: against the
5 filtered ERROR records, fetching with offset 0 and limit 5 returns a full page,
so the code sets `hasMore = true`, although `0 + 5 < 5` is false. -/
theorem C1_hasMore_counterexample :
    fetchHasMore (listLogsPage (filteredLogs errFilters none scenarioLogs) 0 5) 5
        = true ∧
    ¬ (0 + 5 < (filteredLogs errFilters none scenarioLogs).length) := by
  constructor
  · decide
  · decide

/-- **C1 (amended).** For every filter/sort setting, store, offset and positive
limit, the code's `hasMore` flag is true iff `offset + limit ≤ filteredCount`
(`≤`, not the claimed `<`: when the last page ends exactly at the end of the
sequence the flag is still true, and the loop terminates on the next, empty,
fetch), and the returned page holds `min limit (filteredCount − offset)` records
— in the spec's scenario (5 ERROR + 3 other records, levelFilter "ERROR",
limit 1, offset 0): exactly 1 record with `hasMore = true`. -/
theorem C1_hasMore_amended (fl : Filters) (sf : Option (SortField × Bool))
    (logs : List LogRecord) (offset limit : Nat) (hpos : 0 < limit) :
    (fetchHasMore (listLogsPage (filteredLogs fl sf logs) offset limit) limit = true ↔
      offset + limit ≤ (filteredLogs fl sf logs).length) ∧
    (listLogsPage (filteredLogs fl sf logs) offset limit).length =
      min limit ((filteredLogs fl sf logs).length - offset) := by
  have hlen : (listLogsPage (filteredLogs fl sf logs) offset limit).length =
      min limit ((filteredLogs fl sf logs).length - offset) := by
    simp [listLogsPage]
  refine ⟨?_, hlen⟩
  rw [fetchHasMore, hlen]
  by_cases hcond : min limit ((filteredLogs fl sf logs).length - offset) < limit
  · rw [if_pos hcond]
    exact iff_of_false (by simp) (by omega)
  · rw [if_neg hcond]
    exact iff_of_true rfl (by omega)

theorem C1_hasMore_amended_witness :
    (fetchHasMore (listLogsPage (filteredLogs errFilters none scenarioLogs) 0 1) 1
        = true ↔
      0 + 1 ≤ (filteredLogs errFilters none scenarioLogs).length) ∧
    (listLogsPage (filteredLogs errFilters none scenarioLogs) 0 1).length =
      min 1 ((filteredLogs errFilters none scenarioLogs).length - 0) :=
  C1_hasMore_amended errFilters none scenarioLogs 0 1 (by decide)

/-- The accumulation loop of `fetchLogs` / the infinite-scroll observer
(part_003 lines 849-916): starting at offset 0 and stepping by the (positive)
batch size, pages are fetched and concatenated for as long as `hasMore` is true;
a final exactly-full page triggers one extra fetch that contributes the empty
page. -/
def collectPages (limit : Nat) (hpos : 0 < limit) (l : List LogRecord) :
    List LogRecord :=
  if h : fetchHasMore (l.take limit) limit = true then
    l.take limit ++ collectPages limit hpos (l.drop limit)
  else l.take limit
termination_by l.length
decreasing_by
  have h2 : limit ≤ l.length := by
    by_cases hc : (l.take limit).length < limit
    · unfold fetchHasMore at h
      rw [if_pos hc] at h
      exact absurd h (by simp)
    · rw [List.length_take] at hc
      omega
  simp only [List.length_drop]
  omega

theorem collectPages_eq_self (limit : Nat) (hpos : 0 < limit) (l : List LogRecord) :
    collectPages limit hpos l = l := by
  unfold collectPages
  split
  · rename_i h
    rw [collectPages_eq_self limit hpos (l.drop limit), List.take_append_drop]
  · rename_i h
    have h2 : (l.take limit).length < limit := by
      by_contra hc
      unfold fetchHasMore at h
      rw [if_neg hc] at h
      exact h rfl
    rw [List.length_take] at h2
    exact List.take_of_length_le (by omega)
termination_by l.length
decreasing_by
  rename_i h
  have h2 : limit ≤ l.length := by
    by_cases hc : (l.take limit).length < limit
    · unfold fetchHasMore at h
      rw [if_pos hc] at h
      exact absurd h (by simp)
    · rw [List.length_take] at hc
      omega
  simp only [List.length_drop]
  omega

/-- **C5.** Pagination is lossless and non-overlapping: concatenating the pages
obtained at offsets 0, limit, 2·limit, … until `hasMore` is false reproduces the
full filtered/sorted sequence exactly once — no record is dropped and none
appears on two pages. -/
theorem C5_pagination_lossless (fl : Filters) (sf : Option (SortField × Bool))
    (logs : List LogRecord) (limit : Nat) (hpos : 0 < limit) :
    collectPages limit hpos (filteredLogs fl sf logs) = filteredLogs fl sf logs :=
  collectPages_eq_self limit hpos (filteredLogs fl sf logs)

theorem C5_pagination_lossless_witness :
    collectPages 3 (by decide) (filteredLogs errFilters none scenarioLogs) =
      filteredLogs errFilters none scenarioLogs :=
  C5_pagination_lossless errFilters none scenarioLogs 3 (by decide)

/-! ## Analysis extraction -/

/-- `array.slice(s, e)` for non-negative indices, as used in `handleAnalyze`. -/
def jsSlice (l : List LogRecord) (s e : Nat) : List LogRecord := (l.drop s).take (e - s)

/-- `handleAnalyze` (part_003 line 278): the analysis input is
`filteredLogs.slice(0, 50).map(l => l.raw)`. -/
def handleAnalyzeLogLines (filtered : List LogRecord) : List String :=
  (jsSlice filtered 0 50).map fun log => log.raw

/-- **C8.** The analysis-input extraction returns the verbatim `raw` strings of
exactly the first `min(50, length)` records of the filtered sequence it is given,
in that order, and never more than 50 entries. -/
theorem C8_extract_for_analysis (filtered : List LogRecord) :
    handleAnalyzeLogLines filtered = (filtered.take 50).map (fun log => log.raw) ∧
    (handleAnalyzeLogLines filtered).length = min 50 filtered.length ∧
    (handleAnalyzeLogLines filtered).length ≤ 50 := by
  have he : handleAnalyzeLogLines filtered
      = (filtered.take 50).map fun log => log.raw := by
    simp [handleAnalyzeLogLines, jsSlice]
  refine ⟨he, ?_, ?_⟩ <;> rw [he] <;>
    simp only [List.length_map, List.length_take] <;> omega

theorem C9_query_engine_readonly_witness :
    readArr (filteredLogsHeap errFilters none ⟨[scenarioLogs]⟩ 0).1 0 =
      readArr ⟨[scenarioLogs]⟩ 0 :=
  (C9_query_engine_readonly errFilters none ⟨[scenarioLogs]⟩ 0 (by decide)).1

/-! ## formatTimestamp (part_003 lines 932-960) and the three timestamp shapes

The three regexes are embedded as deterministic prefix parsers over `List Char`.
`\s+` and `\d+` are greedy; in these regexes every greedy atom is followed by an
atom whose character class is disjoint from it, so maximal munch coincides with
the regex engine's backtracking semantics. -/

/-- The class `\d` (ASCII digits). -/
def isDigitC (c : Char) : Bool := decide (48 ≤ c.toNat) && decide (c.toNat ≤ 57)

/-- The class `\s` (ASCII whitespace; the Unicode space characters JS also
accepts do not occur in the timestamps handled here). -/
def isWSC (c : Char) : Bool :=
  c == ' ' || c == '\t' || c == '\n' || c == '\r' || c == '\x0b' || c == '\x0c'

/-- The class `[A-Z]`. -/
def isUpperC (c : Char) : Bool := decide (65 ≤ c.toNat) && decide (c.toNat ≤ 90)

/-- The class `[a-z]`. -/
def isLowerC (c : Char) : Bool := decide (97 ≤ c.toNat) && decide (c.toNat ≤ 122)

/-- Exactly `n` digit characters. -/
def takeDigitsN : Nat → List Char → Option (List Char × List Char)
  | 0, l => some ([], l)
  | _ + 1, [] => none
  | n + 1, c :: l =>
    if isDigitC c then
      match takeDigitsN n l with
      | some (ds, r) => some (c :: ds, r)
      | none => none
    else none

/-- One literal character. -/
def takeLit (c : Char) : List Char → Option (List Char)
  | [] => none
  | x :: r => if x == c then some r else none

/-- One character of a class. -/
def takeCls (p : Char → Bool) : List Char → Option (Char × List Char)
  | [] => none
  | x :: r => if p x then some (x, r) else none

/-- One or more characters of a class, greedily. -/
def takeMany1 (p : Char → Bool) (l : List Char) : Option (List Char × List Char) :=
  match l.span p with
  | ([], _) => none
  | (a, r) => some (a, r)

/-- `\d{2}:\d{2}:\d{2}`, returning the matched text. -/
def takeTime (l : List Char) : Option (List Char × List Char) :=
  match takeDigitsN 2 l with
  | none => none
  | some (hh, r1) =>
    match takeLit ':' r1 with
    | none => none
    | some r2 =>
      match takeDigitsN 2 r2 with
      | none => none
      | some (mi, r3) =>
        match takeLit ':' r3 with
        | none => none
        | some r4 =>
          match takeDigitsN 2 r4 with
          | none => none
          | some (ss, r5) => some (hh ++ ':' :: mi ++ ':' :: ss, r5)

/-- The regex `^(\d{4}-\d{2}-\d{2})T(\d{2}:\d{2}:\d{2})` (part_003 line 937):
on success, the two capture groups. -/
def matchIso (l : List Char) : Option (List Char × List Char) :=
  match takeDigitsN 4 l with
  | none => none
  | some (y, r1) =>
    match takeLit '-' r1 with
    | none => none
    | some r2 =>
      match takeDigitsN 2 r2 with
      | none => none
      | some (mo, r3) =>
        match takeLit '-' r3 with
        | none => none
        | some r4 =>
          match takeDigitsN 2 r4 with
          | none => none
          | some (d, r5) =>
            match takeLit 'T' r5 with
            | none => none
            | some r6 =>
              match takeTime r6 with
              | none => none
              | some (t, _) => some (y ++ '-' :: mo ++ '-' :: d, t)

/-- The four capture groups of the syslog regex. -/
structure SyslogCaps where
  year : List Char
  mon : List Char
  day : List Char
  time : List Char
deriving DecidableEq, Repr

/-- The regex `^(\d{4})\s+([A-Z][a-z]{2})\s+(\d+)\s+(\d{2}:\d{2}:\d{2})`
(part_003 line 943). -/
def matchSyslog (l : List Char) : Option SyslogCaps :=
  match takeDigitsN 4 l with
  | none => none
  | some (y, r1) =>
    match takeMany1 isWSC r1 with
    | none => none
    | some (_, r2) =>
      match takeCls isUpperC r2 with
      | none => none
      | some (m1, r3) =>
        match takeCls isLowerC r3 with
        | none => none
        | some (m2, r4) =>
          match takeCls isLowerC r4 with
          | none => none
          | some (m3, r5) =>
            match takeMany1 isWSC r5 with
            | none => none
            | some (_, r6) =>
              match takeMany1 isDigitC r6 with
              | none => none
              | some (d, r7) =>
                match takeMany1 isWSC r7 with
                | none => none
                | some (_, r8) =>
                  match takeTime r8 with
                  | none => none
                  | some (t, _) => some ⟨y, [m1, m2, m3], d, t⟩

/-- The regex test `^\d{4}-\d{2}-\d{2}\s+\d{2}:\d{2}:\d{2}` (part_003 line 952). -/
def matchPlain (l : List Char) : Bool :=
  match takeDigitsN 4 l with
  | none => false
  | some (_, r1) =>
    match takeLit '-' r1 with
    | none => false
    | some r2 =>
      match takeDigitsN 2 r2 with
      | none => false
      | some (_, r3) =>
        match takeLit '-' r3 with
        | none => false
        | some r4 =>
          match takeDigitsN 2 r4 with
          | none => false
          | some (_, r5) =>
            match takeMany1 isWSC r5 with
            | none => false
            | some (_, r6) => (takeTime r6).isSome

/-- `['', 'Jan', ..., 'Dec']` (part_003 line 945). -/
def monthNames : List (List Char) :=
  [[], ['J','a','n'], ['F','e','b'], ['M','a','r'], ['A','p','r'], ['M','a','y'],
   ['J','u','n'], ['J','u','l'], ['A','u','g'], ['S','e','p'], ['O','c','t'],
   ['N','o','v'], ['D','e','c']]

/-- `Array.prototype.indexOf`: first index of `x`, `-1` when absent. -/
def jsIndexOf : List (List Char) → List Char → Int
  | [], _ => -1
  | a :: r, x =>
    if a == x then 0
    else
      let i := jsIndexOf r x
      if i < 0 then -1 else i + 1

/-- `str.padStart(2, '0')`. -/
def jsPadStart2 (l : List Char) : List Char :=
  match l with
  | [] => ['0', '0']
  | [c] => ['0', c]
  | l => l

/-- `formatTimestamp` (part_003 lines 932-960): `null` or empty → `"-"`; an input
containing `'T'` and matching the ISO regex → `"date time"`; a syslog-shaped
prefix → year, month number looked up in `monthNames` (`'??'` when the
abbreviation is not in the table), padded day, time; a plain-shaped prefix →
first 19 characters; otherwise the input unchanged.  The `try/catch` wrapper is
dead code here: no step of the embedded logic throws. -/
def fmtBody (l : List Char) : String :=
  match (if l.contains 'T' then matchIso l else none) with
  | some (datePart, timePart) => String.mk (datePart ++ ' ' :: timePart)
  | none =>
    match matchSyslog l with
    | some caps =>
      let monthNum := jsIndexOf monthNames caps.mon
      let month :=
        if 0 < monthNum then jsPadStart2 (Nat.repr monthNum.toNat).data
        else ['?', '?']
      String.mk
        (caps.year ++ '-' :: month ++ '-' :: jsPadStart2 caps.day ++
          ' ' :: caps.time)
    | none =>
      if matchPlain l then String.mk (l.take 19) else String.mk l

def formatTimestamp (timestamp : Option String) : String :=
  match timestamp with
  | none => "-"
  | some ts =>
    if ts = "" then "-"
    else fmtBody ts.data

/-- The digit character of `k mod 10`. -/
def dchar (k : Nat) : Char := Char.ofNat (48 + k % 10)

/-- `n` printed as exactly two digits (`n < 100` prints `n` zero-padded). -/
def pad2 (n : Nat) : List Char := [dchar (n / 10), dchar n]

/-- `n` printed as exactly four digits (`n < 10000` prints `n` zero-padded). -/
def pad4 (n : Nat) : List Char :=
  [dchar (n / 1000), dchar (n / 100), dchar (n / 10), dchar n]

/-- `HH:MM:SS`. -/
def timeRepr (hh mi ss : Nat) : List Char :=
  pad2 hh ++ (':' :: (pad2 mi ++ (':' :: pad2 ss)))

/-- The fixed 12-entry month table of spec §4.1 (also the tail of
`formatTimestamp`'s `monthNames`). -/
def monthTable : List (List Char) :=
  [['J','a','n'], ['F','e','b'], ['M','a','r'], ['A','p','r'], ['M','a','y'],
   ['J','u','n'], ['J','u','l'], ['A','u','g'], ['S','e','p'], ['O','c','t'],
   ['N','o','v'], ['D','e','c']]

/-- The abbreviation of month `mo` (1-based). -/
def monthAbbrev (mo : Nat) : List Char := monthTable.getD (mo - 1) []

/-- A wall-clock instant in the ISO-8601-like shape `YYYY-MM-DDTHH:MM:SS[...]`. -/
def isoRepr (y mo d hh mi ss : Nat) (rest : List Char) : List Char :=
  pad4 y ++ ('-' :: (pad2 mo ++ ('-' :: (pad2 d ++ ('T' :: (timeRepr hh mi ss ++ rest))))))

/-- The same instant in the syslog shape `YYYY Mon DD HH:MM:SS[...]`. -/
def syslogRepr (y mo d hh mi ss : Nat) (rest : List Char) : List Char :=
  pad4 y ++ (' ' :: (monthAbbrev mo ++ (' ' :: (pad2 d ++ (' ' :: (timeRepr hh mi ss ++ rest))))))

/-- The same instant in the plain shape `YYYY-MM-DD HH:MM:SS[...]`. -/
def plainRepr (y mo d hh mi ss : Nat) (rest : List Char) : List Char :=
  pad4 y ++ ('-' :: (pad2 mo ++ ('-' :: (pad2 d ++ (' ' :: (timeRepr hh mi ss ++ rest))))))

/-- The normalized display value `YYYY-MM-DD HH:MM:SS`. -/
def normRepr (y mo d hh mi ss : Nat) : List Char :=
  pad4 y ++ ('-' :: (pad2 mo ++ ('-' :: (pad2 d ++ (' ' :: timeRepr hh mi ss)))))

/-! ### Character-class facts -/

theorem isDigitC_dchar (k : Nat) : isDigitC (dchar k) = true := by
  unfold dchar
  have h : k % 10 < 10 := Nat.mod_lt _ (by omega)
  set m := k % 10 with hm
  interval_cases m <;> decide

theorem isWSC_dchar (k : Nat) : isWSC (dchar k) = false := by
  unfold dchar
  have h : k % 10 < 10 := Nat.mod_lt _ (by omega)
  set m := k % 10 with hm
  interval_cases m <;> decide

theorem beq_false_of_toNat_ne (c x : Char) (h : c.toNat ≠ x.toNat) :
    (c == x) = false := by
  refine beq_eq_false_iff_ne.mpr fun he => h (by rw [he])

theorem toNat_le_32_of_isWSC (c : Char) (h : isWSC c = true) : c.toNat ≤ 32 := by
  unfold isWSC at h
  simp only [Bool.or_eq_true, beq_iff_eq] at h
  rcases h with ((((rfl | rfl) | rfl) | rfl) | rfl) | rfl <;> decide

theorem isWSC_eq_false_of_upper (c : Char) (h : isUpperC c = true) :
    isWSC c = false := by
  unfold isUpperC at h
  simp only [Bool.and_eq_true, decide_eq_true_eq] at h
  by_contra hc
  have := toNat_le_32_of_isWSC c (by revert hc; cases isWSC c <;> simp)
  omega

/-! ### Parser evaluation lemmas -/

theorem takeDigitsN_exact (ds : List Char) (r : List Char)
    (h : ∀ c ∈ ds, isDigitC c = true) :
    takeDigitsN ds.length (ds ++ r) = some (ds, r) := by
  induction ds with
  | nil => rfl
  | cons c t ih =>
    have hc : isDigitC c = true := h c (by simp)
    have ih2 := ih fun x hx => h x (by simp [hx])
    simp [takeDigitsN, hc, ih2]

theorem pad2_digits (n : Nat) : ∀ c ∈ pad2 n, isDigitC c = true := by
  intro c hc
  simp only [pad2, List.mem_cons, List.mem_singleton, List.not_mem_nil, or_false] at hc
  rcases hc with rfl | rfl <;> exact isDigitC_dchar _

theorem pad4_digits (n : Nat) : ∀ c ∈ pad4 n, isDigitC c = true := by
  intro c hc
  simp only [pad4, List.mem_cons, List.mem_singleton, List.not_mem_nil, or_false] at hc
  rcases hc with rfl | rfl | rfl | rfl <;> exact isDigitC_dchar _

theorem takeDigitsN_pad2 (n : Nat) (r : List Char) :
    takeDigitsN 2 (pad2 n ++ r) = some (pad2 n, r) :=
  takeDigitsN_exact (pad2 n) r (pad2_digits n)

theorem takeDigitsN_pad4 (n : Nat) (r : List Char) :
    takeDigitsN 4 (pad4 n ++ r) = some (pad4 n, r) :=
  takeDigitsN_exact (pad4 n) r (pad4_digits n)

theorem takeLit_cons_self (c : Char) (r : List Char) : takeLit c (c :: r) = some r := by
  simp [takeLit]

theorem takeLit_cons_ne (c x : Char) (r : List Char) (h : (x == c) = false) :
    takeLit c (x :: r) = none := by
  simp [takeLit, h]

theorem takeCls_cons_pos (p : Char → Bool) (x : Char) (r : List Char)
    (h : p x = true) : takeCls p (x :: r) = some (x, r) := by
  simp [takeCls, h]

theorem takeMany1_cons_pair (p : Char → Bool) (c c2 : Char) (r : List Char)
    (hc : p c = true) (hc2 : p c2 = false) :
    takeMany1 p (c :: c2 :: r) = some ([c], c2 :: r) := by
  unfold takeMany1
  rw [List.span_eq_take_drop]
  rw [List.takeWhile_cons_of_pos hc, List.takeWhile_cons_of_neg (by simp [hc2]),
    List.dropWhile_cons_of_pos hc, List.dropWhile_cons_of_neg (by simp [hc2])]

theorem takeMany1_head_neg (p : Char → Bool) (c : Char) (r : List Char)
    (hc : p c = false) : takeMany1 p (c :: r) = none := by
  unfold takeMany1
  rw [List.span_eq_take_drop]
  rw [List.takeWhile_cons_of_neg (by simp [hc])]

theorem takeMany1_all_append (p : Char → Bool) (ds : List Char) (c0 : Char)
    (r : List Char) (hall : ∀ c ∈ ds, p c = true) (hne : ds ≠ [])
    (hc : p c0 = false) :
    takeMany1 p (ds ++ c0 :: r) = some (ds, c0 :: r) := by
  have hspan : (ds ++ c0 :: r).takeWhile p = ds ∧ (ds ++ c0 :: r).dropWhile p = c0 :: r := by
    clear hne
    induction ds with
    | nil =>
      constructor
      · rw [List.nil_append, List.takeWhile_cons_of_neg (by simp [hc])]
      · rw [List.nil_append, List.dropWhile_cons_of_neg (by simp [hc])]
    | cons d ds ih =>
      have hd : p d = true := hall d (by simp)
      have ih2 := ih fun c hcm => hall c (by simp [hcm])
      simp only [List.cons_append, List.takeWhile_cons_of_pos hd,
        List.dropWhile_cons_of_pos hd, ih2.1, ih2.2, and_self]
  cases ds with
  | nil => exact absurd rfl hne
  | cons d ds =>
    unfold takeMany1
    rw [List.span_eq_take_drop, hspan.1, hspan.2]

theorem takeTime_timeRepr (hh mi ss : Nat) (r : List Char) :
    takeTime (timeRepr hh mi ss ++ r) = some (timeRepr hh mi ss, r) := by
  unfold timeRepr
  simp only [List.append_assoc, List.cons_append]
  simp only [takeTime, takeDigitsN_pad2, takeLit_cons_self]
  simp [List.append_assoc]

theorem matchIso_isoRepr (y mo d hh mi ss : Nat) (rest : List Char) :
    matchIso (isoRepr y mo d hh mi ss rest) =
      some (pad4 y ++ '-' :: pad2 mo ++ '-' :: pad2 d, timeRepr hh mi ss) := by
  simp only [isoRepr, matchIso, takeDigitsN_pad4, takeLit_cons_self, takeDigitsN_pad2,
    takeTime_timeRepr]

theorem matchIso_syslogRepr (y mo d hh mi ss : Nat) (rest : List Char) :
    matchIso (syslogRepr y mo d hh mi ss rest) = none := by
  have h1 : ∀ r : List Char, takeLit '-' (' ' :: r) = none := fun r =>
    takeLit_cons_ne '-' ' ' r (by decide)
  simp only [syslogRepr, matchIso, takeDigitsN_pad4, h1]

theorem matchIso_plainRepr (y mo d hh mi ss : Nat) (rest : List Char) :
    matchIso (plainRepr y mo d hh mi ss rest) = none := by
  have h1 : ∀ r : List Char, takeLit 'T' (' ' :: r) = none := fun r =>
    takeLit_cons_ne 'T' ' ' r (by decide)
  simp only [plainRepr, matchIso, takeDigitsN_pad4, takeLit_cons_self, takeDigitsN_pad2, h1]

theorem matchSyslog_plainRepr (y mo d hh mi ss : Nat) (rest : List Char) :
    matchSyslog (plainRepr y mo d hh mi ss rest) = none := by
  have h1 : ∀ r : List Char, takeMany1 isWSC ('-' :: r) = none := fun r =>
    takeMany1_head_neg isWSC '-' r (by decide)
  simp only [plainRepr, matchSyslog, takeDigitsN_pad4, h1]

theorem matchSyslog_shape (y d hh mi ss : Nat) (m1 m2 m3 : Char) (rest : List Char)
    (hu : isUpperC m1 = true) (hl2 : isLowerC m2 = true) (hl3 : isLowerC m3 = true) :
    matchSyslog
        (pad4 y ++ ' ' ::
          (m1 :: m2 :: m3 :: ' ' :: (pad2 d ++ ' ' :: (timeRepr hh mi ss ++ rest))))
      = some ⟨pad4 y, [m1, m2, m3], pad2 d, timeRepr hh mi ss⟩ := by
  have h2 : takeMany1 isWSC
        (' ' :: (m1 :: m2 :: m3 :: ' ' :: (pad2 d ++ ' ' :: (timeRepr hh mi ss ++ rest))))
      = some ([' '], m1 :: m2 :: m3 :: ' ' :: (pad2 d ++ ' ' :: (timeRepr hh mi ss ++ rest))) :=
    takeMany1_cons_pair isWSC ' ' m1 _ (by decide) (isWSC_eq_false_of_upper m1 hu)
  have h5 : takeMany1 isWSC (' ' :: (pad2 d ++ ' ' :: (timeRepr hh mi ss ++ rest)))
      = some ([' '], pad2 d ++ ' ' :: (timeRepr hh mi ss ++ rest)) :=
    takeMany1_cons_pair isWSC ' ' (dchar (d / 10)) _ (by decide) (isWSC_dchar _)
  have h6 : takeMany1 isDigitC (pad2 d ++ ' ' :: (timeRepr hh mi ss ++ rest))
      = some (pad2 d, ' ' :: (timeRepr hh mi ss ++ rest)) :=
    takeMany1_all_append isDigitC (pad2 d) ' ' _ (pad2_digits d) (by simp [pad2])
      (by decide)
  have h7 : takeMany1 isWSC (' ' :: (timeRepr hh mi ss ++ rest))
      = some ([' '], timeRepr hh mi ss ++ rest) :=
    takeMany1_cons_pair isWSC ' ' (dchar (hh / 10)) _ (by decide) (isWSC_dchar _)
  simp only [matchSyslog, takeDigitsN_pad4, h2, takeCls, hu, hl2, hl3, if_true,
    h5, h6, h7, takeTime_timeRepr]

theorem matchPlain_plainRepr (y mo d hh mi ss : Nat) (rest : List Char) :
    matchPlain (plainRepr y mo d hh mi ss rest) = true := by
  have h7 : takeMany1 isWSC (' ' :: (timeRepr hh mi ss ++ rest))
      = some ([' '], timeRepr hh mi ss ++ rest) :=
    takeMany1_cons_pair isWSC ' ' (dchar (hh / 10)) _ (by decide) (isWSC_dchar _)
  simp only [plainRepr, matchPlain, takeDigitsN_pad4, takeLit_cons_self,
    takeDigitsN_pad2, h7, takeTime_timeRepr, Option.isSome_some]

/-- Each month 1..12: its abbreviation, the letter classes of its three
characters, its 1-based position in `monthNames`, membership in the 12-entry
table, and that its number prints as the same two padded digits. -/
theorem monthAbbrev_spec (mo : Nat) (h1 : 1 ≤ mo) (h2 : mo ≤ 12) :
    ∃ m1 m2 m3, monthAbbrev mo = [m1, m2, m3] ∧
      isUpperC m1 = true ∧ isLowerC m2 = true ∧ isLowerC m3 = true ∧
      jsIndexOf monthNames [m1, m2, m3] = (mo : Int) ∧
      monthTable.contains [m1, m2, m3] = true ∧
      jsPadStart2 (Nat.repr mo).data = pad2 mo := by
  interval_cases mo <;>
    exact ⟨_, _, _, rfl, by decide, by decide, by decide, by decide, by decide,
      by decide⟩

theorem jsPadStart2_pad2 (d : Nat) : jsPadStart2 (pad2 d) = pad2 d := rfl

theorem normRepr_length (y mo d hh mi ss : Nat) :
    (normRepr y mo d hh mi ss).length = 19 := rfl

theorem plainRepr_eq_norm_append (y mo d hh mi ss : Nat) (rest : List Char) :
    plainRepr y mo d hh mi ss rest = normRepr y mo d hh mi ss ++ rest := by
  simp [plainRepr, normRepr, List.append_assoc]

theorem mk_ne_empty_of_ne_nil (l : List Char) (h : l ≠ []) :
    ¬ (String.mk l = "") := by
  intro he
  apply h
  have hd : (String.mk l).data = ("" : String).data := by rw [he]
  exact hd

theorem formatTimestamp_mk (l : List Char) (h : l ≠ []) :
    formatTimestamp (some (String.mk l)) = fmtBody l := by
  simp only [formatTimestamp]
  rw [if_neg (mk_ne_empty_of_ne_nil l h)]

theorem isoRepr_ne_nil (y mo d hh mi ss : Nat) (rest : List Char) :
    isoRepr y mo d hh mi ss rest ≠ [] := by simp [isoRepr, pad4]

theorem syslogRepr_ne_nil (y mo d hh mi ss : Nat) (rest : List Char) :
    syslogRepr y mo d hh mi ss rest ≠ [] := by simp [syslogRepr, pad4]

theorem plainRepr_ne_nil (y mo d hh mi ss : Nat) (rest : List Char) :
    plainRepr y mo d hh mi ss rest ≠ [] := by simp [plainRepr, pad4]

theorem isoRepr_contains_T (y mo d hh mi ss : Nat) (rest : List Char) :
    (isoRepr y mo d hh mi ss rest).contains 'T' = true :=
  List.elem_eq_true_of_mem (by simp [isoRepr])

/-- **C7.** For every wall-clock instant, a timestamp expressing that instant in
any of the three supported shapes — ISO-8601-like `YYYY-MM-DDTHH:MM:SS[...]`,
syslog-style `YYYY Mon DD HH:MM:SS[...]` with a recognized month, or plain
`YYYY-MM-DD HH:MM:SS[...]` — is normalized by `formatTimestamp` to one identical
`YYYY-MM-DD HH:MM:SS` value. -/
theorem C7_three_shapes_same_instant (y mo d hh mi ss : Nat) (rest : List Char)
    (hy : y < 10000) (hmo1 : 1 ≤ mo) (hmo2 : mo ≤ 12) (hd1 : 1 ≤ d) (hd2 : d ≤ 31)
    (hhh : hh < 24) (hmi : mi < 60) (hss : ss < 60) :
    formatTimestamp (some (String.mk (isoRepr y mo d hh mi ss rest)))
        = String.mk (normRepr y mo d hh mi ss) ∧
    formatTimestamp (some (String.mk (syslogRepr y mo d hh mi ss rest)))
        = String.mk (normRepr y mo d hh mi ss) ∧
    formatTimestamp (some (String.mk (plainRepr y mo d hh mi ss rest)))
        = String.mk (normRepr y mo d hh mi ss) := by
  obtain ⟨m1, m2, m3, habbrev, hu, hl2, hl3, hidx, hmem, hpad⟩ :=
    monthAbbrev_spec mo hmo1 hmo2
  refine ⟨?_, ?_, ?_⟩
  · rw [formatTimestamp_mk _ (isoRepr_ne_nil y mo d hh mi ss rest)]
    simp only [fmtBody, isoRepr_contains_T, if_true, matchIso_isoRepr]
    exact congrArg String.mk (by simp [normRepr, List.append_assoc])
  · rw [formatTimestamp_mk _ (syslogRepr_ne_nil y mo d hh mi ss rest)]
    have hiso := matchIso_syslogRepr y mo d hh mi ss rest
    have hscrut :
        (if (syslogRepr y mo d hh mi ss rest).contains 'T' then
          matchIso (syslogRepr y mo d hh mi ss rest) else none) = none := by
      cases hT : (syslogRepr y mo d hh mi ss rest).contains 'T' <;> simp [hiso]
    have hms : matchSyslog (syslogRepr y mo d hh mi ss rest)
        = some ⟨pad4 y, [m1, m2, m3], pad2 d, timeRepr hh mi ss⟩ := by
      unfold syslogRepr
      rw [habbrev]
      exact matchSyslog_shape y d hh mi ss m1 m2 m3 rest hu hl2 hl3
    simp only [fmtBody, hscrut, hms, hidx]
    rw [if_pos (by omega : (0 : Int) < (mo : Int))]
    simp only [Int.toNat_natCast, hpad, jsPadStart2_pad2]
    exact congrArg String.mk (by simp [normRepr, List.append_assoc])
  · rw [formatTimestamp_mk _ (plainRepr_ne_nil y mo d hh mi ss rest)]
    have hiso := matchIso_plainRepr y mo d hh mi ss rest
    have hscrut :
        (if (plainRepr y mo d hh mi ss rest).contains 'T' then
          matchIso (plainRepr y mo d hh mi ss rest) else none) = none := by
      cases hT : (plainRepr y mo d hh mi ss rest).contains 'T' <;> simp [hiso]
    simp only [fmtBody, hscrut, matchSyslog_plainRepr, matchPlain_plainRepr, if_true]
    refine congrArg String.mk ?_
    rw [plainRepr_eq_norm_append, ← normRepr_length y mo d hh mi ss]
    exact List.take_left _ _

theorem C7_three_shapes_same_instant_witness :
    formatTimestamp (some (String.mk (isoRepr 2024 1 15 10 23 45 []))) =
        String.mk (normRepr 2024 1 15 10 23 45) ∧
    formatTimestamp (some (String.mk (syslogRepr 2024 1 15 10 23 45 []))) =
        String.mk (normRepr 2024 1 15 10 23 45) ∧
    formatTimestamp (some (String.mk (plainRepr 2024 1 15 10 23 45 []))) =
        String.mk (normRepr 2024 1 15 10 23 45) :=
  C7_three_shapes_same_instant 2024 1 15 10 23 45 [] (by decide) (by decide)
    (by decide) (by decide) (by decide) (by decide) (by decide) (by decide)

/-- Modelled from the spec: the backend Timestamp/Level Parser (spec §4.1) — the
FastAPI backend (`backend/main.py`) is not among the sources, only its callers
are.  In priority order: (a) an ISO-8601-like prefix; (b) the syslog shape, the
three-letter month abbreviation matched case-sensitively against the fixed
12-entry table, an unrecognized abbreviation being a timestamp parse failure that
keeps the record with `timestamp = null`; (c) the plain shape; when nothing
matches, `timestamp = null`.  `none` models null; on success the matched
timestamp text is returned. -/
def parseTimestampSpec (l : List Char) : Option (List Char) :=
  match matchIso l with
  | some (datePart, timePart) => some (datePart ++ 'T' :: timePart)
  | none =>
    match matchSyslog l with
    | some caps =>
      if monthTable.contains caps.mon then
        some (caps.year ++ ' ' :: caps.mon ++ ' ' :: caps.day ++ ' ' :: caps.time)
      else none
    | none => if matchPlain l then some (l.take 19) else none

theorem takeMany1_some_head (p : Char → Bool) (l : List Char) (a r : List Char)
    (h : takeMany1 p l = some (a, r)) : ∃ c t, l = c :: t ∧ p c = true := by
  cases l with
  | nil => simp [takeMany1, List.span_eq_take_drop] at h
  | cons c t =>
    by_cases hp : p c = true
    · exact ⟨c, t, rfl, hp⟩
    · rw [takeMany1_head_neg p c t (by revert hp; cases p c <;> simp)] at h
      exact absurd h (by simp)

theorem matchIso_eq_none_of_matchSyslog (l : List Char) (caps : SyslogCaps)
    (h : matchSyslog l = some caps) : matchIso l = none := by
  cases e1 : takeDigitsN 4 l with
  | none =>
    simp only [matchSyslog, e1] at h
    exact absurd h (by simp)
  | some yr =>
    obtain ⟨y, r1⟩ := yr
    cases e2 : takeMany1 isWSC r1 with
    | none =>
      simp only [matchSyslog, e1, e2] at h
      exact absurd h (by simp)
    | some wsr =>
      obtain ⟨ws, r2⟩ := wsr
      obtain ⟨c, t, rfl, hcp⟩ := takeMany1_some_head isWSC r1 ws r2 e2
      have hle := toNat_le_32_of_isWSC c hcp
      have hlit : takeLit '-' (c :: t) = none :=
        takeLit_cons_ne '-' c t (beq_false_of_toNat_ne c '-' (by
          have h45 : ('-').toNat = 45 := by decide
          omega))
      simp only [matchIso, e1, hlit]

/-- **C6.** For every raw line whose prefix matches the syslog-style shape, the
month abbreviation is matched case-sensitively against the fixed 12-entry table:
the parsed timestamp is non-null exactly when the abbreviation is in the table;
an unrecognized abbreviation makes the timestamp parse fail, leaving
`timestamp = null`, not a partial or placeholder value. -/
theorem C6_syslog_month_case_sensitive (l : List Char) (caps : SyslogCaps)
    (h : matchSyslog l = some caps) :
    (parseTimestampSpec l).isSome = monthTable.contains caps.mon := by
  have hiso := matchIso_eq_none_of_matchSyslog l caps h
  simp only [parseTimestampSpec, hiso, h]
  cases hm : monthTable.contains caps.mon <;> simp [hm]

/-- The raw line prefix `2024 Xyz 15 10:00:00`: syslog-shaped, but `Xyz` is not a
month abbreviation. -/
def unknownMonthLine : List Char :=
  ['2','0','2','4',' ','X','y','z',' ','1','5',' ','1','0',':','0','0',':','0','0']

/-- The capture groups the syslog regex yields on `unknownMonthLine`. -/
def unknownMonthCaps : SyslogCaps :=
  ⟨['2','0','2','4'], ['X','y','z'], ['1','5'], ['1','0',':','0','0',':','0','0']⟩

theorem C6_syslog_month_case_sensitive_witness :
    (parseTimestampSpec unknownMonthLine).isSome =
      monthTable.contains unknownMonthCaps.mon :=
  C6_syslog_month_case_sensitive unknownMonthLine unknownMonthCaps (by decide)
